import Mathlib

/-! Shallow embedding of the Vega-Lite data-pipeline compiler
(`src/compile/data.ts`): the dataset / transform descriptors it emits and
the functions that assemble them from the compiled model view.  Functions
whose source lives outside `src/` (the `Model` accessors, `field` from
`../fielddef`, `autoMaxBins`, `rawDomain`, `parseExpression`, the resolved
scale type) are modelled from the spec and carry a doc comment saying so. -/

/-- Encoding channels (`../channel`): the finite set of visual slots. -/
inductive Channel where
  | x | y | row | column | color | shape | size | text | detail
deriving DecidableEq, Repr

/-- Semantic field types (`../type`). -/
inductive VlType where
  | nominal | ordinal | quantitative | temporal
deriving DecidableEq, Repr

/-- A field's bin property: the boolean flag `true`, or an object carrying
optional `maxbins` / `step` parameters.  An absent or `false` bin is `none`
at the `FieldDef` level. -/
inductive BinSpec where
  | flag
  | par (maxbins : Option Nat) (step : Option Nat)
deriving DecidableEq, Repr

/-- Per-channel field definition, the read-only view the Model supplies. -/
structure FieldDef where
  field : String := ""
  type : VlType := VlType.quantitative
  aggregate : Option String := none
  bin : Option BinSpec := none
  timeUnit : Option String := none
deriving DecidableEq, Repr

/-- Scale configuration for one channel (`model.scale(channel)`).  `domain`
is `some` exactly when an explicit array-valued domain is declared (the
source's `instanceof Array` test); `type` is the declared scale type used by
the log filter; `rtype` is the resolved scale type.  Modelled from the spec:
the resolution function in `./scale` is not under `src/`, so the resolved
type is carried as part of the scale view. -/
structure Scale where
  domain : Option (List String) := none
  padding : Nat := 0
  bandWidth : Nat := 21
  type : Option String := none
  rtype : String := "linear"
deriving DecidableEq, Repr

/-- One user calculation (`transform().calculate` entry). -/
structure Formula where
  field : String
  expr : String
deriving DecidableEq, Repr

/-- Global transform configuration from the Model. -/
structure TransformCfg where
  filterNull : Option Bool := none
  filter : Option String := none
  calculate : List Formula := []
deriving DecidableEq, Repr

/-- Stacking relation from `model.stack()`. -/
structure StackProperties where
  groupbyChannel : Channel
  fieldChannel : Channel
deriving DecidableEq, Repr

/-- An inline data value: a number, a string, or the empty placeholder
object `{}` used by the layout dataset. -/
inductive VgValue where
  | num (n : Int)
  | str (s : String)
  | obj
deriving DecidableEq, Repr

/-- A JavaScript formula value: `scaleWidthFormula` returns
`string | number`, so formula expressions carry either shape. -/
inductive EV where
  | s (v : String)
  | n (v : Int)
deriving DecidableEq, Repr

/-- JavaScript string coercion of a formula value, as `+` concatenation
performs it. -/
def EV.toStr : EV → String
  | .s v => v
  | .n v => toString v

/-- Transform descriptors, one constructor per tagged variant the compiler
emits. -/
inductive VgTransform where
  | filter (test : String)
  | formula (field : String) (expr : EV)
  | bin (field startName midName endName : String) (maxbins step : Option Nat)
  | aggregate (groupby : Option (List String)) (summarize : List (String × List String))
  | sort (sortBy : String)
  | rank (field : String) (rankField : String)
deriving DecidableEq, Repr

/-- A dataset's format object; `parse` is attached only when needed. -/
structure VgFormat where
  ftype : String
  parse : Option (List (String × String)) := none
deriving DecidableEq, Repr

/-- A Vega dataset definition (the `VgData` interface of the source). -/
structure VgData where
  name : String
  source : Option String := none
  values : Option (List VgValue) := none
  url : Option String := none
  format : Option VgFormat := none
  transform : List VgTransform := []
deriving DecidableEq, Repr

/-- The compiled model view (external collaborator, spec §6): bound
channels in canonical scan order, per-channel field and scale views, global
transform configuration, mark, unit sizes, the data source and the stacking
relation. -/
structure Model where
  channels : List Channel
  fieldDefOf : Channel → FieldDef
  scaleOf : Channel → Scale
  transform : TransformCfg
  mark : String
  unitWidth : Nat
  unitHeight : Nat
  dataValues : Option (List VgValue) := none
  dataUrl : String := ""
  formatType : String := "json"
  stackProps : Option StackProperties := none

/-- Modelled from the spec: the reserved name registry (`../data`). -/
def SOURCE : String := "source"

/-- Modelled from the spec: the reserved name registry (`../data`). -/
def SUMMARY : String := "summary"

/-- Modelled from the spec: the reserved name registry (`../data`). -/
def LAYOUT : String := "layout"

/-- Modelled from the spec: the reserved name registry (`../data`). -/
def STACKED_SCALE : String := "stacked_scale"

/-- Insertion-ordered string-keyed dictionary mirroring JavaScript object
semantics: iteration follows insertion order of keys. -/
abbrev StrDict (β : Type) := List (String × β)

/-- Set a key: an existing key keeps its position, a new key is appended. -/
def dsetIn {β : Type} : StrDict β → String → β → StrDict β
  | [], k, v => [(k, v)]
  | (k', v') :: d, k, v => if k' = k then (k, v) :: d else (k', v') :: dsetIn d k v

/-- `Object.keys`, in insertion order. -/
def dictKeys {β : Type} (d : StrDict β) : List String := d.map Prod.fst

/-- `vals`, in insertion order. -/
def dictVals {β : Type} (d : StrDict β) : List β := d.map Prod.snd

/-- Append a key at the end unless it is already present: the effect one
`dict[k] = v` assignment has on the key order. -/
def addDistinct (acc : List String) (k : String) : List String :=
  if k ∈ acc then acc else acc ++ [k]

/-- Insert every name of `ks` as both key and value (`dims[f] = f`). -/
def dputSelf (d : StrDict String) (ks : List String) : StrDict String :=
  ks.foldl (fun d k => dsetIn d k k) d

/-- Options of the field-reference builder. -/
structure FieldOpt where
  datum : Bool := false
  nofn : Bool := false
  prefn : String := ""
  binSuffix : Option String := none
deriving DecidableEq, Repr

/-- Modelled from the spec: `vlFieldDef.isCount` from `../fielddef` (not
under `src/`): the synthetic count field. -/
def isCount (fd : FieldDef) : Bool := fd.aggregate == some ("count")

/-- Modelled from the spec: the field-reference builder `field` from
`../fielddef` (not under `src/`).  Per the spec's naming conventions: bin
output names are the deterministic `<field>_start` / `_mid` / `_end` /
`_range` of the field name; a count aggregate is the synthetic `count`
reference; aggregate and time-unit fields get `<fn>_<field>` derived names;
`datum` and `prefn` prefix the reference; `nofn` yields the raw field. -/
def fieldRef (fd : FieldDef) (opt : FieldOpt := {}) : String :=
  let pre := (if opt.datum then "datum." else "") ++ opt.prefn
  if opt.nofn then pre ++ fd.field
  else if fd.bin.isSome then pre ++ fd.field ++ (opt.binSuffix.getD ("_start"))
  else if isCount fd then pre ++ "count"
  else
    match fd.aggregate with
    | some a => pre ++ a ++ "_" ++ fd.field
    | none =>
      match fd.timeUnit with
      | some tu => pre ++ tu ++ "_" ++ fd.field
      | none => pre ++ fd.field

/-- Modelled from the spec: `model.has(channel)`, the channel-presence
predicate. -/
def Model.has (m : Model) (c : Channel) : Bool := m.channels.contains c

/-- Modelled from the spec: `model.field(channel, opt)` builds the field
reference of the channel's field definition. -/
def Model.field (m : Model) (c : Channel) (opt : FieldOpt := {}) : String :=
  fieldRef (m.fieldDefOf c) opt

/-- Modelled from the spec: the resolved scale type (`type` of `./scale`,
not under `src/`); the resolution result is carried in the scale view. -/
def scaleType (scale : Scale) (_fd : FieldDef) (_c : Channel) (_mark : String) : String :=
  scale.rtype

/-- Modelled from the spec: `model.isOrdinalScale(channel)`: whether the
channel's resolved scale type is ordinal. -/
def Model.isOrdinalScale (m : Model) (c : Channel) : Bool :=
  scaleType (m.scaleOf c) (m.fieldDefOf c) c m.mark == "ordinal"

/-- Modelled from the spec: `model.dataTable()`, the name of the trailing
data table: summary when some channel aggregates, else source. -/
def Model.dataTable (m : Model) : String :=
  if m.channels.any (fun c => (m.fieldDefOf c).aggregate.isSome) then SUMMARY else SOURCE

/-- The per-type default of the null-filter policy (`DEFAULT_NULL_FILTERS`). -/
def DEFAULT_NULL_FILTERS (t : VlType) : Bool :=
  match t with
  | .nominal => false
  | .ordinal => false
  | .quantitative => true
  | .temporal => true

/-- Modelled from the spec: `autoMaxBins` from `../bin` (not under `src/`),
the per-channel default max-bin-count policy. -/
def autoMaxBins (c : Channel) : Nat :=
  match c with
  | .row | .column | .shape | .size => 6
  | _ => 10

/-- Modelled from the spec: `rawDomain` from `./time` (not under `src/`):
the canonical enumeration of a bounded calendar unit (hour-of-day: 24,
day-of-week: 7, month-of-year: 12, ...), `none` for unbounded units.  The
original also receives the channel, on which the spec states no
dependence. -/
def rawDomain (timeUnit : String) : Option (List Int) :=
  if timeUnit == "seconds" then some ((List.range 60).map Int.ofNat)
  else if timeUnit == "minutes" then some ((List.range 60).map Int.ofNat)
  else if timeUnit == "hours" then some ((List.range 24).map Int.ofNat)
  else if timeUnit == "day" then some ((List.range 7).map Int.ofNat)
  else if timeUnit == "date" then some ((List.range 31).map (fun i => Int.ofNat (i + 1)))
  else if timeUnit == "month" then some ((List.range 12).map (fun i => Int.ofNat (i + 1)))
  else none

/-- Modelled from the spec: `parseExpression` from `./time` (not under
`src/`), the unit-specific expression template rewriting a reference to its
time-unit-truncated value; opaque to this compiler. -/
def parseExpression (timeUnit : String) (ref : String) (onlyRef : Bool := false) : String :=
  timeUnit ++ "(" ++ ref ++ (if onlyRef then ", raw" else "") ++ ")"

/-- JavaScript truthiness of an optional number (`!binTrans.maxbins`). -/
def jsTruthyNat (o : Option Nat) : Bool :=
  match o with
  | none => false
  | some n => n != 0

/-- `source.nullFilterTransform`: collect the fields requiring null
exclusion into a dict (set semantics), emit a single AND-joined filter
transform, or nothing when the set is empty. -/
def nullFilterTransform (m : Model) : List VgTransform :=
  let filterNull := m.transform.filterNull
  let filteredFields := dictKeys (m.channels.foldl (fun agg c =>
    let fd := m.fieldDefOf c
    if filterNull = some true ∨
        (filterNull = none ∧ fd.field ≠ "" ∧ fd.field ≠ "*" ∧
          DEFAULT_NULL_FILTERS fd.type = true) then
      dsetIn agg fd.field true
    else agg) ([] : StrDict Bool))
  if filteredFields.length > 0 then
    [VgTransform.filter (String.intercalate (" && ")
      (filteredFields.map (fun fieldName => "datum." ++ fieldName ++ "!==null")))]
  else []

/-- `source.filterTransform`: one optional filter from the raw override
expression (JavaScript truthiness: the empty string emits nothing). -/
def filterTransform (m : Model) : List VgTransform :=
  match m.transform.filter with
  | some f => if f ≠ "" then [VgTransform.filter f] else []
  | none => []

/-- `source.formulaTransform`: one formula per user calculation, in
declaration order. -/
def formulaTransform (m : Model) : List VgTransform :=
  m.transform.calculate.foldl (fun tr f => tr ++ [VgTransform.formula f.field (EV.s f.expr)]) []

/-- The single quote character, as the source's escaped `\'` writes it. -/
def squo : String := String.singleton (Char.ofNat 39)

/-- `source.binTransform`: per binned channel a bin transform with
`_start` / `_mid` / `_end` outputs, maxbins defaulted when neither maxbins
nor step is given, followed by a `_range` label formula when the resolved
scale is ordinal or the channel is color. -/
def binTransform (m : Model) : List VgTransform :=
  m.channels.foldl (fun tr c =>
    let fd := m.fieldDefOf c
    let scale := m.scaleOf c
    match fd.bin with
    | none => tr
    | some b =>
      let mb := match b with | .flag => none | .par mb _ => mb
      let st := match b with | .flag => none | .par _ st => st
      let mb := if !jsTruthyNat mb && !jsTruthyNat st then some (autoMaxBins c) else mb
      let tr := tr ++ [VgTransform.bin fd.field
        (fieldRef fd { binSuffix := some ("_start") })
        (fieldRef fd { binSuffix := some ("_mid") })
        (fieldRef fd { binSuffix := some ("_end") }) mb st]
      if scaleType scale fd c m.mark = "ordinal" ∨ c = Channel.color then
        tr ++ [VgTransform.formula (fieldRef fd { binSuffix := some ("_range") })
          (EV.s (fieldRef fd { datum := true, binSuffix := some ("_start") }
            ++ " + " ++ squo ++ "-" ++ squo ++ " + "
            ++ fieldRef fd { datum := true, binSuffix := some ("_end") }))]
      else tr) []

/-- `source.timeTransform`: per temporal channel with a time unit, a
formula rewriting the field to its truncated value. -/
def timeTransform (m : Model) : List VgTransform :=
  m.channels.foldl (fun tr c =>
    let fd := m.fieldDefOf c
    let ref := fieldRef fd { nofn := true, datum := true }
    match fd.timeUnit with
    | some tu =>
      if fd.type = VlType.temporal then
        tr ++ [VgTransform.formula (fieldRef fd) (EV.s (parseExpression tu ref))]
      else tr
    | none => tr) []

/-- `source.transform`: null filter, then formulas, filter, bin, time. -/
def sourceTransform (m : Model) : List VgTransform :=
  nullFilterTransform m ++ formulaTransform m ++ filterTransform m
    ++ binTransform m ++ timeTransform m

/-- `source.formatParse`: temporal fields parse as date, quantitative as
number unless synthetic count or user-calculated. -/
def formatParse (m : Model) : Option (List (String × String)) :=
  let calcFields := m.transform.calculate.map (fun f => f.field)
  m.channels.foldl (fun parse c =>
    let fd := m.fieldDefOf c
    if fd.type = VlType.temporal then
      some (dsetIn (parse.getD []) fd.field ("date"))
    else if fd.type = VlType.quantitative then
      if isCount fd || calcFields.contains fd.field then parse
      else some (dsetIn (parse.getD []) fd.field ("number"))
    else parse) none

/-- `source.def`: the base dataset, inline values or url, with format
parse and the five-stage transform list. -/
def sourceDef (m : Model) : VgData :=
  let base : VgData :=
    if m.dataValues.isSome then
      { name := SOURCE, values := m.dataValues,
        format := some { ftype := "json", parse := formatParse m } }
    else
      { name := SOURCE, url := some m.dataUrl,
        format := some { ftype := m.formatType, parse := formatParse m } }
  { base with transform := sourceTransform m }

/-- Accumulator of `summary.def`'s channel scan: dimension dict, measure
dict and the aggregate flag. -/
structure SummaryAcc where
  dims : StrDict String
  meas : StrDict (StrDict Bool)
  hasAggregate : Bool

/-- The dimension names one non-aggregated channel contributes: the bin
expansion (`_start`, `_mid`, `_end`, plus `_range` on an ordinal scale) of
a binned field, else the plain field reference. -/
def dimNames (m : Model) (c : Channel) : List String :=
  let fd := m.fieldDefOf c
  if fd.bin.isSome then
    [fieldRef fd { binSuffix := some ("_start") },
     fieldRef fd { binSuffix := some ("_mid") },
     fieldRef fd { binSuffix := some ("_end") }]
    ++ (if scaleType (m.scaleOf c) fd c m.mark = "ordinal" then
          [fieldRef fd { binSuffix := some ("_range") }]
        else [])
  else [fieldRef fd]

/-- One step of `summary.def`'s `model.forEach`: an aggregated channel
registers its measure (count under the wildcard key), a non-aggregated one
its dimension names. -/
def summaryStep (m : Model) (acc : SummaryAcc) (c : Channel) : SummaryAcc :=
  let fd := m.fieldDefOf c
  match fd.aggregate with
  | some agg =>
    if agg = "count" then
      { acc with
        hasAggregate := true,
        meas := dsetIn acc.meas ("*") (dsetIn ((acc.meas.lookup ("*")).getD []) ("count") true) }
    else
      { acc with
        hasAggregate := true,
        meas := dsetIn acc.meas fd.field (dsetIn ((acc.meas.lookup fd.field).getD []) agg true) }
  | none => { acc with dims := dputSelf acc.dims (dimNames m c) }

/-- `summary.def`: the aggregated dataset, or `null` when no channel
aggregates. -/
def summaryDef (m : Model) : Option VgData :=
  let acc := m.channels.foldl (summaryStep m) { dims := [], meas := [], hasAggregate := false }
  let groupby := dictVals acc.dims
  let summarize := acc.meas.map (fun p => (p.1, dictKeys p.2))
  if acc.hasAggregate then
    some { name := SUMMARY, source := some SOURCE,
           transform := [VgTransform.aggregate (some groupby) summarize] }
  else none

/-- `layout.cardinalityFormula`: explicit domain length, else bounded
time-unit domain length, else the runtime distinct-count reference. -/
def cardinalityFormula (m : Model) (c : Channel) : EV :=
  match (m.scaleOf c).domain with
  | some d => EV.n d.length
  | none =>
    match (m.fieldDefOf c).timeUnit with
    | some tu =>
      match rawDomain tu with
      | some dom => EV.n dom.length
      | none => EV.s (m.field c { datum := true, prefn := "distinct_" })
    | none => EV.s (m.field c { datum := true, prefn := "distinct_" })

/-- `layout.scaleWidthFormula`: per-cell size of one positional channel. -/
def scaleWidthFormula (m : Model) (c : Channel) (nonOrdinalSize : Nat) : EV :=
  if m.has c then
    if m.isOrdinalScale c then
      let scale := m.scaleOf c
      EV.s ("(" ++ (cardinalityFormula m c).toStr ++ " + " ++ toString scale.padding
        ++ ") * " ++ toString scale.bandWidth)
    else EV.n nonOrdinalSize
  else
    if m.mark = "text" ∧ c = Channel.x then EV.n 90 else EV.n 21

/-- `layout.facetScaleWidthFormula`: total size across a facet channel. -/
def facetScaleWidthFormula (m : Model) (c : Channel) (innerWidth : String) : String :=
  let scale := m.scaleOf c
  if m.has c then
    let cardinality : EV :=
      match scale.domain with
      | some d => EV.n d.length
      | none => EV.s (m.field c { datum := true, prefn := "distinct_" })
    "(" ++ innerWidth ++ " + " ++ toString scale.padding ++ ")" ++ " * " ++ cardinality.toStr
  else innerWidth ++ " + " ++ toString scale.padding

/-- `layout.def`: the layout dataset with its distinct-count aggregation
(when needed) and the four size formulas.  The non-facet `height` formula
reproduces the source exactly: line 269 of `data.ts` uses
`cellWidthFormula` there. -/
def layoutDef (m : Model) : VgData :=
  let distinctSummary := [Channel.x, Channel.y, Channel.row, Channel.column].foldl (fun s c =>
    if m.has c && m.isOrdinalScale c then
      if (m.scaleOf c).domain = none then s ++ [(m.field c, [("distinct" : String)])] else s
    else s) ([] : List (String × List String))
  let cellWidthFormula := scaleWidthFormula m Channel.x m.unitWidth
  let cellHeightFormula := scaleWidthFormula m Channel.y m.unitHeight
  let isFacet := m.has Channel.column || m.has Channel.row
  let formulas : List VgTransform := [
    VgTransform.formula ("cellWidth") cellWidthFormula,
    VgTransform.formula ("cellHeight") cellHeightFormula,
    VgTransform.formula ("width")
      (if isFacet then EV.s (facetScaleWidthFormula m Channel.column ("datum.cellWidth"))
       else cellWidthFormula),
    VgTransform.formula ("height")
      (if isFacet then EV.s (facetScaleWidthFormula m Channel.row ("datum.cellHeight"))
       else cellWidthFormula)]
  if distinctSummary.length > 0 then
    { name := LAYOUT, source := some m.dataTable,
      transform := [VgTransform.aggregate none distinctSummary] ++ formulas }
  else
    { name := LAYOUT, values := some [VgValue.obj], transform := formulas }

/-- `stack.def`: the stacked-scale dataset grouping by the orthogonal
channel plus facet fields, summing the stacked field. -/
def stackDef (m : Model) (stackProps : StackProperties) : VgData :=
  let facetFields := (if m.has Channel.column then [m.field Channel.column] else [])
    ++ (if m.has Channel.row then [m.field Channel.row] else [])
  { name := STACKED_SCALE, source := some m.dataTable,
    transform := [VgTransform.aggregate
      (some ([m.field stackProps.groupbyChannel] ++ facetFields))
      [(m.field stackProps.fieldChannel, [("sum" : String)])]] }

/-- One step of `dates.defs`'s `model.reduce`: a channel with a bounded
time unit not yet seen emits its standalone dataset. -/
def datesStep (m : Model) (st : List String × List VgData) (c : Channel) :
    List String × List VgData :=
  let fd := m.fieldDefOf c
  match fd.timeUnit with
  | some tu =>
    match rawDomain tu with
    | some dom =>
      if tu ∈ st.1 then st
      else (st.1 ++ [tu], st.2 ++ [{
        name := tu,
        values := some (dom.map VgValue.num),
        transform := [VgTransform.formula ("date")
          (EV.s (parseExpression tu ("datum.data") true))] }])
    | none => st
  | none => st

/-- `dates.defs`: the standalone time-domain datasets, first occurrence of
each bounded unit only. -/
def datesDefs (m : Model) : List VgData :=
  (m.channels.foldl (datesStep m) (([], []) : List String × List VgData)).2

/-- `rankTransform`: when the color channel is ordinal, append a sort and a
rank transform to the given data table. -/
def rankTransform (dataTable : VgData) (m : Model) : VgData :=
  if m.has Channel.color && ((m.fieldDefOf Channel.color).type == VlType.ordinal) then
    { dataTable with transform := dataTable.transform ++
      [VgTransform.sort (m.field Channel.color),
       VgTransform.rank (m.field Channel.color) (m.field Channel.color { prefn := "rank_" })] }
  else dataTable

/-- `filterNonPositiveForLog`: per log-scaled channel, append a positive
filter on the channel's field to the given data table.  `model.scale` is
total in this view, so the source's `scale &&` guard is always satisfied. -/
def filterNonPositiveForLog (dataTable : VgData) (m : Model) : VgData :=
  { dataTable with
    transform := m.channels.foldl (fun tr c =>
      let scale := m.scaleOf c
      if scale.type = some ("log") then
        tr ++ [VgTransform.filter (m.field c { datum := true } ++ (" > 0"))]
      else tr) dataTable.transform }

/-- `compileData`: source, optional summary, rank and log post-processing of
the trailing dataset, then layout, optional stack and the time-domain
datasets.  The source's in-place mutation of `def[def.length - 1]` is
rendered functionally. -/
def compileData (m : Model) : List VgData :=
  let defs :=
    match summaryDef m with
    | some s => [sourceDef m, filterNonPositiveForLog (rankTransform s m) m]
    | none => [filterNonPositiveForLog (rankTransform (sourceDef m) m) m]
  let defs := defs ++ [layoutDef m]
  let defs :=
    match m.stackProps with
    | some sp => defs ++ [stackDef m sp]
    | none => defs
  defs ++ datesDefs m

/-! ## List and dictionary lemmas -/

/-- Concatenation of per-element lists, the shape of a `reduce` that only
pushes: `model.reduce((acc, x) => acc.push(...g x), [])`. -/
def catMaps {α β : Type} (g : α → List β) : List α → List β
  | [] => []
  | x :: xs => g x ++ catMaps g xs

lemma foldl_push {α β : Type} (f : List β → α → List β) (g : α → List β)
    (hf : ∀ acc x, f acc x = acc ++ g x) :
    ∀ (l : List α) (init : List β), l.foldl f init = init ++ catMaps g l := by
  intro l
  induction l with
  | nil => intro init; simp [catMaps]
  | cons x xs ih =>
    intro init
    simp only [List.foldl_cons, catMaps, hf, ih, List.append_assoc]

lemma catMaps_congr {α β : Type} {g g' : α → List β} {l : List α}
    (h : ∀ x ∈ l, g x = g' x) : catMaps g l = catMaps g' l := by
  induction l with
  | nil => rfl
  | cons x xs ih =>
    simp only [catMaps, h x (List.mem_cons_self x xs)]
    rw [ih (fun y hy => h y (List.mem_cons_of_mem x hy))]

lemma forall_mem_catMaps {α β : Type} {g : α → List β} {l : List α}
    {P : β → Prop} (h : ∀ x ∈ l, ∀ t ∈ g x, P t) :
    ∀ t ∈ catMaps g l, P t := by
  induction l with
  | nil => intro t ht; simp [catMaps] at ht
  | cons x xs ih =>
    intro t ht
    simp only [catMaps, List.mem_append] at ht
    rcases ht with ht | ht
    · exact h x (List.mem_cons_self x xs) t ht
    · exact ih (fun y hy => h y (List.mem_cons_of_mem x hy)) t ht

lemma catMaps_if_singleton {α β : Type} (p : α → Prop) [DecidablePred p]
    (f : α → β) (l : List α) :
    catMaps (fun x => if p x then [f x] else []) l
      = l.filterMap (fun x => if p x then some (f x) else none) := by
  induction l with
  | nil => rfl
  | cons x xs ih =>
    by_cases hx : p x <;> simp [catMaps, hx, List.filterMap_cons, ih]

lemma dictKeys_dsetIn {β : Type} (d : StrDict β) (k : String) (v : β) :
    dictKeys (dsetIn d k v) = addDistinct (dictKeys d) k := by
  induction d with
  | nil => simp [dsetIn, dictKeys, addDistinct]
  | cons p d ih =>
    obtain ⟨k', v'⟩ := p
    by_cases hk : k' = k
    · subst hk
      simp [dsetIn, dictKeys, addDistinct]
    · simp only [dsetIn, if_neg hk, dictKeys, List.map_cons] at *
      rw [ih]
      by_cases hmem : k ∈ d.map Prod.fst
      · simp [addDistinct, hmem, Ne.symm hk]
      · simp [addDistinct, hmem, Ne.symm hk]

lemma dictKeys_dputSelf (d : StrDict String) (ks : List String) :
    dictKeys (dputSelf d ks) = ks.foldl addDistinct (dictKeys d) := by
  induction ks generalizing d with
  | nil => rfl
  | cons k ks ih =>
    simp only [dputSelf, List.foldl_cons] at *
    rw [ih (dsetIn d k k), dictKeys_dsetIn]

lemma dictKeys_foldl_cond {α β : Type} (p : α → Prop) [DecidablePred p]
    (f : α → String) (v : β) :
    ∀ (l : List α) (d : StrDict β),
      dictKeys (l.foldl (fun d x => if p x then dsetIn d (f x) v else d) d)
        = (l.filterMap (fun x => if p x then some (f x) else none)).foldl
            addDistinct (dictKeys d) := by
  intro l
  induction l with
  | nil => intro d; rfl
  | cons x xs ih =>
    intro d
    by_cases hx : p x
    · simp only [List.foldl_cons, if_pos hx, List.filterMap_cons, ih, dictKeys_dsetIn]
    · simp only [List.foldl_cons, if_neg hx, List.filterMap_cons, ih]

lemma nodup_foldl_addDistinct :
    ∀ (l acc : List String), acc.Nodup → (l.foldl addDistinct acc).Nodup := by
  intro l
  induction l with
  | nil => intro acc h; exact h
  | cons x xs ih =>
    intro acc h
    apply ih
    by_cases hx : x ∈ acc
    · simpa [addDistinct, hx] using h
    · simp only [addDistinct, if_neg hx]
      simp [List.nodup_append, h, hx]

lemma kvId_dsetIn_self (d : StrDict String) (k : String)
    (h : ∀ p ∈ d, p.2 = p.1) : ∀ p ∈ dsetIn d k k, p.2 = p.1 := by
  induction d with
  | nil =>
    intro p hp
    simp [dsetIn] at hp
    simp [hp]
  | cons q d ih =>
    obtain ⟨k', v'⟩ := q
    intro p hp
    by_cases hk : k' = k
    · rw [show dsetIn ((k', v') :: d) k k = (k, k) :: d by simp [dsetIn, hk]] at hp
      cases hp with
      | head => rfl
      | tail _ hmem => exact h p (List.mem_cons_of_mem _ hmem)
    · rw [show dsetIn ((k', v') :: d) k k = (k', v') :: dsetIn d k k by simp [dsetIn, hk]] at hp
      cases hp with
      | head => exact h _ (List.mem_cons_self _ _)
      | tail _ hmem => exact ih (fun q hq => h q (List.mem_cons_of_mem _ hq)) p hmem

lemma kvId_dputSelf (d : StrDict String) (ks : List String)
    (h : ∀ p ∈ d, p.2 = p.1) : ∀ p ∈ dputSelf d ks, p.2 = p.1 := by
  induction ks generalizing d with
  | nil => exact h
  | cons k ks ih =>
    simp only [dputSelf, List.foldl_cons]
    exact ih (dsetIn d k k) (kvId_dsetIn_self d k h)

lemma dictVals_eq_dictKeys (d : StrDict String) (h : ∀ p ∈ d, p.2 = p.1) :
    dictVals d = dictKeys d := by
  induction d with
  | nil => rfl
  | cons p d ih =>
    simp only [dictVals, dictKeys, List.map_cons]
    rw [h p (List.mem_cons_self p d)]
    rw [show d.map Prod.snd = dictVals d from rfl, ih (fun q hq => h q (List.mem_cons_of_mem _ hq))]
    rfl

lemma foldl_push_nil {α β : Type} (f : List β → α → List β) (g : α → List β)
    (hf : ∀ acc x, f acc x = acc ++ g x) (l : List α) :
    l.foldl f [] = catMaps g l := by
  simpa using foldl_push f g hf l []

/-! ## Shape of the per-function outputs -/

/-- The time-unit transforms one channel contributes. -/
def timeStepList (m : Model) (c : Channel) : List VgTransform :=
  let fd := m.fieldDefOf c
  match fd.timeUnit with
  | some tu =>
    if fd.type = VlType.temporal then
      [VgTransform.formula (fieldRef fd)
        (EV.s (parseExpression tu (fieldRef fd { nofn := true, datum := true })))]
    else []
  | none => []

lemma timeTransform_eq (m : Model) :
    timeTransform m = catMaps (timeStepList m) m.channels := by
  unfold timeTransform
  apply foldl_push_nil
  intro acc c
  simp only [timeStepList]
  cases htu : (m.fieldDefOf c).timeUnit with
  | none => simp
  | some tu =>
    by_cases ht : (m.fieldDefOf c).type = VlType.temporal <;> simp [htu, ht]

lemma formulaTransform_eq (m : Model) :
    formulaTransform m
      = m.transform.calculate.map (fun f => VgTransform.formula f.field (EV.s f.expr)) := by
  unfold formulaTransform
  rw [foldl_push_nil _ (fun f => [VgTransform.formula f.field (EV.s f.expr)]) (by intro acc f; rfl)]
  induction m.transform.calculate with
  | nil => rfl
  | cons f fs ih => simp [catMaps, ih]

/-- The bin transforms one channel contributes, with the spec's literal
output names: `<field>_start` / `_mid` / `_end`, the maxbins default when
the bin specification gives neither maxbins nor step, and the `_range`
label formula exactly when the resolved scale type is ordinal or the
channel is color. -/
def binExpected (m : Model) (c : Channel) : List VgTransform :=
  let fd := m.fieldDefOf c
  match fd.bin with
  | none => []
  | some b =>
    let mb := match b with | .flag => none | .par mb _ => mb
    let st := match b with | .flag => none | .par _ st => st
    [VgTransform.bin fd.field (fd.field ++ "_start") (fd.field ++ "_mid") (fd.field ++ "_end")
      (if jsTruthyNat mb || jsTruthyNat st then mb else some (autoMaxBins c)) st]
    ++ (if scaleType (m.scaleOf c) fd c m.mark = "ordinal" ∨ c = Channel.color then
          [VgTransform.formula (fd.field ++ "_range")
            (EV.s ("datum." ++ fd.field ++ "_start" ++ " + " ++ squo ++ "-" ++ squo
              ++ " + " ++ ("datum." ++ fd.field ++ "_end")))]
        else [])

lemma fieldRef_binSuffix (fd : FieldDef) (b : BinSpec) (hb : fd.bin = some b)
    (dat : Bool) (suf : String) :
    fieldRef fd { datum := dat, binSuffix := some suf }
      = (if dat then "datum." else "") ++ fd.field ++ suf := by
  simp [fieldRef, hb]

lemma binTransform_eq (m : Model) :
    binTransform m = catMaps (binExpected m) m.channels := by
  unfold binTransform
  apply foldl_push_nil
  intro acc c
  simp only [binExpected]
  cases hb : (m.fieldDefOf c).bin with
  | none => simp
  | some b =>
    have hs := fieldRef_binSuffix (m.fieldDefOf c) b hb
    cases b with
    | flag =>
      by_cases hor : scaleType (m.scaleOf c) (m.fieldDefOf c) c m.mark = "ordinal"
          ∨ c = Channel.color <;>
        simp [hb, hor, hs true, hs false, jsTruthyNat, List.append_assoc]
    | par mb st =>
      by_cases hor : scaleType (m.scaleOf c) (m.fieldDefOf c) c m.mark = "ordinal"
          ∨ c = Channel.color <;>
      by_cases hmb : jsTruthyNat mb = true <;>
      by_cases hst : jsTruthyNat st = true <;>
        simp [hb, hor, hmb, hst, hs true, hs false, List.append_assoc]

/-- Whether the color channel is bound to an ordinal-typed field: the
trigger of the rank post-processor. -/
def colorOrdinal (m : Model) : Bool :=
  m.has Channel.color && ((m.fieldDefOf Channel.color).type == VlType.ordinal)

/-- The transforms the rank post-processor appends: a sort on the color
field followed by a rank writing the reserved `rank_` derived field, when
the color channel is ordinal; nothing otherwise. -/
def rankPart (m : Model) : List VgTransform :=
  if colorOrdinal m then
    [VgTransform.sort (m.field Channel.color),
     VgTransform.rank (m.field Channel.color) (m.field Channel.color { prefn := "rank_" })]
  else []

/-- The filters the log post-processor appends: one per channel whose
declared scale type is exactly `log`, testing that channel's own field
reference against `> 0`, in channel order; nothing for other channels. -/
def logPart (m : Model) : List VgTransform :=
  m.channels.filterMap (fun c =>
    if (m.scaleOf c).type = some ("log") then
      some (VgTransform.filter (m.field c { datum := true } ++ (" > 0")))
    else none)

lemma rankTransform_eq (d : VgData) (m : Model) :
    rankTransform d m = { d with transform := d.transform ++ rankPart m } := by
  unfold rankTransform rankPart colorOrdinal
  by_cases hco : m.has Channel.color && ((m.fieldDefOf Channel.color).type == VlType.ordinal)
  · simp [hco]
  · simp [hco]

lemma filterLog_eq (d : VgData) (m : Model) :
    filterNonPositiveForLog d m = { d with transform := d.transform ++ logPart m } := by
  unfold filterNonPositiveForLog logPart
  rw [← catMaps_if_singleton (fun c => (m.scaleOf c).type = some ("log"))
    (fun c => VgTransform.filter (m.field c { datum := true } ++ (" > 0"))) m.channels]
  rw [foldl_push _ (fun c =>
      if (m.scaleOf c).type = some ("log") then
        [VgTransform.filter (m.field c { datum := true } ++ (" > 0"))]
      else []) ?hf m.channels d.transform]
  case hf =>
    intro acc c
    by_cases hc : (m.scaleOf c).type = some ("log") <;> simp [hc]

/-! ## Sort/rank adjacency -/

/-- Transforms other than sort and rank. -/
def plainT : VgTransform → Bool
  | .sort _ => false
  | .rank _ _ => false
  | _ => true

/-- Whether the list opens with a sort transform immediately followed by a
rank transform. -/
def sortThenRankHead : VgTransform → List VgTransform → Bool
  | VgTransform.sort _, VgTransform.rank _ _ :: _ => true
  | _, _ => false

/-- Whether a sort transform immediately followed by a rank transform
occurs anywhere in the list. -/
def hasSortThenRank : List VgTransform → Bool
  | [] => false
  | t :: rest => sortThenRankHead t rest || hasSortThenRank rest

lemma hasSortThenRank_append_right (l1 l2 : List VgTransform)
    (h : hasSortThenRank l2 = true) : hasSortThenRank (l1 ++ l2) = true := by
  induction l1 with
  | nil => simpa using h
  | cons t l1 ih => simp [hasSortThenRank, ih]

lemma hasSortThenRank_sort_rank (s f r : String) (l : List VgTransform) :
    hasSortThenRank (VgTransform.sort s :: VgTransform.rank f r :: l) = true := by
  simp [hasSortThenRank, sortThenRankHead]

lemma hasSortThenRank_of_plain (l : List VgTransform)
    (h : ∀ t ∈ l, plainT t = true) : hasSortThenRank l = false := by
  induction l with
  | nil => rfl
  | cons t rest ih =>
    have ht := h t (List.mem_cons_self t rest)
    have hhead : sortThenRankHead t rest = false := by
      cases t <;> first
        | (simp only [sortThenRankHead]; done)
        | simp [plainT] at ht
    simp [hasSortThenRank, hhead, ih (fun u hu => h u (List.mem_cons_of_mem _ hu))]

/-! ## No sort or rank outside the rank post-processor -/

lemma plainT_nullFilter (m : Model) : ∀ t ∈ nullFilterTransform m, plainT t = true := by
  intro t ht
  simp only [nullFilterTransform] at ht
  split at ht
  · simp only [List.mem_singleton] at ht
    simp [ht, plainT]
  · simp at ht

lemma plainT_formula (m : Model) : ∀ t ∈ formulaTransform m, plainT t = true := by
  rw [formulaTransform_eq]
  intro t ht
  simp only [List.mem_map] at ht
  obtain ⟨f, _, hf⟩ := ht
  simp [← hf, plainT]

lemma plainT_filter (m : Model) : ∀ t ∈ filterTransform m, plainT t = true := by
  unfold filterTransform
  intro t ht
  split at ht
  · split at ht
    · simp only [List.mem_singleton] at ht
      simp [ht, plainT]
    · simp at ht
  · simp at ht

lemma plainT_bin (m : Model) : ∀ t ∈ binTransform m, plainT t = true := by
  rw [binTransform_eq]
  apply forall_mem_catMaps
  intro c _ t ht
  simp only [binExpected] at ht
  split at ht
  · simp at ht
  · simp only [List.mem_append] at ht
    rcases ht with ht | ht
    · simp only [List.mem_singleton] at ht
      simp [ht, plainT]
    · split at ht
      · simp only [List.mem_singleton] at ht
        simp [ht, plainT]
      · simp at ht

lemma plainT_time (m : Model) : ∀ t ∈ timeTransform m, plainT t = true := by
  rw [timeTransform_eq]
  apply forall_mem_catMaps
  intro c _ t ht
  simp only [timeStepList] at ht
  split at ht
  · split at ht
    · simp only [List.mem_singleton] at ht
      simp [ht, plainT]
    · simp at ht
  · simp at ht

lemma plainT_sourceTransform (m : Model) : ∀ t ∈ sourceTransform m, plainT t = true := by
  unfold sourceTransform
  intro t ht
  simp only [List.mem_append] at ht
  rcases ht with ((((ht | ht) | ht) | ht) | ht)
  · exact plainT_nullFilter m t ht
  · exact plainT_formula m t ht
  · exact plainT_filter m t ht
  · exact plainT_bin m t ht
  · exact plainT_time m t ht

lemma plainT_logPart (m : Model) : ∀ t ∈ logPart m, plainT t = true := by
  unfold logPart
  intro t ht
  simp only [List.mem_filterMap] at ht
  obtain ⟨c, _, hc⟩ := ht
  split at hc
  · simp only [Option.some.injEq] at hc
    simp [← hc, plainT]
  · simp at hc

/-! ## Summary aggregation -/

/-- The groupby contribution of one channel, in the spec's words: nothing
for an aggregated channel; for a binned non-aggregated field its `_start`,
`_mid` and `_end` derived names plus `_range` when the resolved scale type
is ordinal; otherwise the plain field reference. -/
def groupbyStep (m : Model) (c : Channel) : List String :=
  let fd := m.fieldDefOf c
  if fd.aggregate.isSome then []
  else if fd.bin.isSome then
    [fd.field ++ "_start", fd.field ++ "_mid", fd.field ++ "_end"]
    ++ (if scaleType (m.scaleOf c) fd c m.mark = "ordinal" then [fd.field ++ "_range"] else [])
  else [fieldRef fd]

/-- The expected groupby list: the non-aggregated, bin-expanded field
references in channel-scan order, first occurrence only. -/
def groupbyExpected (m : Model) : List String :=
  (catMaps (groupbyStep m) m.channels).foldl addDistinct []

lemma dimNames_eq_groupbyStep (m : Model) (c : Channel)
    (hA : (m.fieldDefOf c).aggregate = none) :
    dimNames m c = groupbyStep m c := by
  simp only [dimNames, groupbyStep, hA, Option.isSome_none, Bool.false_eq_true, if_false]
  cases hb : (m.fieldDefOf c).bin with
  | none => simp [hb]
  | some b =>
    have hs := fieldRef_binSuffix (m.fieldDefOf c) b hb false
    simp only [hb, Option.isSome_some, if_true]
    simp [hs]

lemma summaryStep_agg_dims (m : Model) (acc : SummaryAcc) (c : Channel) (a : String)
    (hA : (m.fieldDefOf c).aggregate = some a) :
    (summaryStep m acc c).dims = acc.dims ∧ (summaryStep m acc c).hasAggregate = true := by
  simp only [summaryStep, hA]
  split
  · exact ⟨rfl, rfl⟩
  · exact ⟨rfl, rfl⟩

lemma summaryFold_spec (m : Model) :
    ∀ (cs : List Channel) (acc : SummaryAcc),
      ((cs.foldl (summaryStep m) acc).hasAggregate
          = (acc.hasAggregate || cs.any (fun c => (m.fieldDefOf c).aggregate.isSome)))
      ∧ (dictKeys (cs.foldl (summaryStep m) acc).dims
          = (catMaps (fun c => if (m.fieldDefOf c).aggregate.isSome then [] else dimNames m c)
              cs).foldl addDistinct (dictKeys acc.dims))
      ∧ ((∀ p ∈ acc.dims, p.2 = p.1) → ∀ p ∈ (cs.foldl (summaryStep m) acc).dims, p.2 = p.1) := by
  intro cs
  induction cs with
  | nil =>
    intro acc
    refine ⟨by simp, by simp [catMaps], fun h => h⟩
  | cons c cs ih =>
    intro acc
    obtain ⟨ih1, ih2, ih3⟩ := ih (summaryStep m acc c)
    cases hA : (m.fieldDefOf c).aggregate with
    | some a =>
      obtain ⟨hdims, hagg⟩ := summaryStep_agg_dims m acc c a hA
      refine ⟨?_, ?_, ?_⟩
      · simp [List.foldl_cons, ih1, hagg, hA]
      · simp only [List.foldl_cons, ih2, hdims, catMaps, hA, Option.isSome_some, if_true,
          List.nil_append]
      · intro h
        simp only [List.foldl_cons]
        exact ih3 (hdims ▸ h)
    | none =>
      have hstep : summaryStep m acc c = { acc with dims := dputSelf acc.dims (dimNames m c) } := by
        simp only [summaryStep, hA]
      rw [hstep] at ih1 ih2 ih3
      refine ⟨?_, ?_, ?_⟩
      · simp only [List.foldl_cons, hstep, ih1]
        simp [hA]
      · simp only [List.foldl_cons, hstep, ih2, catMaps, hA, Option.isSome_none,
          Bool.false_eq_true, if_false, List.foldl_append, dictKeys_dputSelf]
      · intro h
        simp only [List.foldl_cons, hstep]
        exact ih3 (kvId_dputSelf acc.dims (dimNames m c) h)

/-! ## Time-domain datasets -/

/-- The standalone dataset one bounded time unit produces: inline values
are the canonical enumeration, the sole transform maps each enumerated
scalar to the time-unit-truncated representation. -/
def dateDataset (tu : String) : VgData :=
  { name := tu, values := some (((rawDomain tu).getD []).map VgValue.num),
    transform := [VgTransform.formula ("date")
      (EV.s (parseExpression tu ("datum.data") true))] }

/-- The time unit a channel contributes a dataset for: its declared time
unit when that unit has a bounded enumerable domain. -/
def boundedUnitOf (m : Model) (c : Channel) : Option String :=
  match (m.fieldDefOf c).timeUnit with
  | some tu => if (rawDomain tu).isSome then some tu else none
  | none => none

/-- The distinct bounded time units in channel-scan order, first
occurrence only. -/
def boundedTimeUnits (m : Model) : List String :=
  (m.channels.filterMap (boundedUnitOf m)).foldl addDistinct []

/-- The units of `us` not in `seen`, first occurrence only. -/
def newOnes (seen : List String) : List String → List String
  | [] => []
  | u :: us => if u ∈ seen then newOnes seen us else u :: newOnes (seen ++ [u]) us

lemma foldl_addDistinct_eq_newOnes (us : List String) :
    ∀ seen : List String, us.foldl addDistinct seen = seen ++ newOnes seen us := by
  induction us with
  | nil => intro seen; simp [newOnes]
  | cons u us ih =>
    intro seen
    by_cases hu : u ∈ seen
    · simp [newOnes, hu, addDistinct, ih]
    · simp only [List.foldl_cons, newOnes, if_neg hu, addDistinct]
      rw [ih (seen ++ [u])]
      simp

lemma datesFold_spec (m : Model) :
    ∀ (cs : List Channel) (seen : List String) (acc : List VgData),
      cs.foldl (datesStep m) (seen, acc)
        = (seen ++ newOnes seen (cs.filterMap (boundedUnitOf m)),
           acc ++ (newOnes seen (cs.filterMap (boundedUnitOf m))).map dateDataset) := by
  intro cs
  induction cs with
  | nil => intro seen acc; simp [newOnes]
  | cons c cs ih =>
    intro seen acc
    cases htu : (m.fieldDefOf c).timeUnit with
    | none =>
      have hstep : datesStep m (seen, acc) c = (seen, acc) := by
        simp [datesStep, htu]
      have hsel : boundedUnitOf m c = none := by simp [boundedUnitOf, htu]
      simp only [List.foldl_cons, hstep, List.filterMap_cons, hsel, ih]
    | some tu =>
      cases hdom : rawDomain tu with
      | none =>
        have hstep : datesStep m (seen, acc) c = (seen, acc) := by
          simp [datesStep, htu, hdom]
        have hsel : boundedUnitOf m c = none := by simp [boundedUnitOf, htu, hdom]
        simp only [List.foldl_cons, hstep, List.filterMap_cons, hsel, ih]
      | some dom =>
        have hsel : boundedUnitOf m c = some tu := by simp [boundedUnitOf, htu, hdom]
        by_cases hseen : tu ∈ seen
        · have hstep : datesStep m (seen, acc) c = (seen, acc) := by
            simp [datesStep, htu, hdom, hseen]
          simp only [List.foldl_cons, hstep, List.filterMap_cons, hsel, ih, newOnes,
            if_pos hseen]
        · have hstep : datesStep m (seen, acc) c
              = (seen ++ [tu], acc ++ [dateDataset tu]) := by
            simp [datesStep, htu, hdom, hseen, dateDataset]
          simp only [List.foldl_cons, hstep, List.filterMap_cons, hsel, ih, newOnes,
            if_neg hseen]
          simp

lemma sourceDef_transform (m : Model) : (sourceDef m).transform = sourceTransform m := by
  unfold sourceDef
  rfl

lemma dates_defs_shape (m : Model) :
    datesDefs m = (boundedTimeUnits m).map dateDataset := by
  unfold datesDefs boundedTimeUnits
  rw [datesFold_spec m m.channels [] [], foldl_addDistinct_eq_newOnes]
  simp

lemma plainT_layout (m : Model) : ∀ t ∈ (layoutDef m).transform, plainT t = true := by
  intro t ht
  simp only [layoutDef] at ht
  split at ht
  · simp only [List.mem_append, List.mem_singleton, List.mem_cons, List.not_mem_nil,
      or_false] at ht
    rcases ht with rfl | rfl | rfl | rfl | rfl <;> rfl
  · simp only [List.mem_cons, List.not_mem_nil, or_false] at ht
    rcases ht with rfl | rfl | rfl | rfl <;> rfl

lemma summaryDef_some_transform (m : Model) (s : VgData) (hs : summaryDef m = some s) :
    ∃ g sum, s.transform = [VgTransform.aggregate g sum] := by
  simp only [summaryDef] at hs
  split at hs
  · obtain rfl := (Option.some.injEq _ _).mp hs
    exact ⟨_, _, rfl⟩
  · simp at hs

lemma plainT_stack (m : Model) (sp : StackProperties) :
    ∀ t ∈ (stackDef m sp).transform, plainT t = true := by
  intro t ht
  simp only [stackDef, List.mem_singleton] at ht
  simp [ht, plainT]

lemma plainT_dates (m : Model) : ∀ d ∈ datesDefs m, ∀ t ∈ d.transform, plainT t = true := by
  intro d hd t ht
  rw [dates_defs_shape m] at hd
  simp only [List.mem_map] at hd
  obtain ⟨tu, _, rfl⟩ := hd
  simp only [dateDataset, List.mem_singleton] at ht
  simp [ht, plainT]

lemma postProcessed_eq (d : VgData) (m : Model) :
    filterNonPositiveForLog (rankTransform d m) m
      = { d with transform := d.transform ++ rankPart m ++ logPart m } := by
  rw [rankTransform_eq d m, filterLog_eq]

lemma hSTR_post (d : VgData) (m : Model)
    (hplain : ∀ t ∈ d.transform, plainT t = true) :
    hasSortThenRank (d.transform ++ rankPart m ++ logPart m) = colorOrdinal m := by
  cases hco : colorOrdinal m with
  | false =>
    apply hasSortThenRank_of_plain
    intro t ht
    simp only [List.append_assoc, List.mem_append] at ht
    rcases ht with ht | ht | ht
    · exact hplain t ht
    · simp [rankPart, hco] at ht
    · exact plainT_logPart m t ht
  | true =>
    rw [List.append_assoc]
    apply hasSortThenRank_append_right
    have hrp : rankPart m
        = [VgTransform.sort (m.field Channel.color),
           VgTransform.rank (m.field Channel.color)
             (m.field Channel.color { prefn := "rank_" })] := by
      simp [rankPart, hco]
    rw [hrp]
    simpa using hasSortThenRank_sort_rank (m.field Channel.color) (m.field Channel.color)
      (m.field Channel.color { prefn := "rank_" }) (logPart m)

/-- C2 (amended): in `compileData`'s output, the post-processing target —
the dataset at index 1 when a summary dataset exists, else index 0 — is the
summary (else source) dataset with, appended after all of its own
transforms, first the rank part (a sort on the color field immediately
followed by a rank transform, present exactly when the color channel is
ordinal) and then the log-filter part; and the output contains a sort
transform immediately followed by a rank transform if and only if the color
channel is bound to an ordinal-typed field. -/
theorem rank_post_processing_amended (m : Model) :
    ((compileData m)[(if (summaryDef m).isSome then 1 else 0)]?
        = some { (summaryDef m).getD (sourceDef m) with
                 transform := ((summaryDef m).getD (sourceDef m)).transform
                   ++ rankPart m ++ logPart m })
    ∧ ((compileData m).any (fun d => hasSortThenRank d.transform) = colorOrdinal m) := by
  have hsrcplain : ∀ t ∈ (sourceDef m).transform, plainT t = true := by
    rw [sourceDef_transform]
    exact plainT_sourceTransform m
  have hlayout : hasSortThenRank (layoutDef m).transform = false :=
    hasSortThenRank_of_plain _ (plainT_layout m)
  have hdates : (datesDefs m).any (fun d => hasSortThenRank d.transform) = false := by
    rw [List.any_eq_false]
    intro d hd
    simp [hasSortThenRank_of_plain _ (plainT_dates m d hd)]
  have hstack : ∀ sp : StackProperties,
      hasSortThenRank (stackDef m sp).transform = false := fun sp =>
    hasSortThenRank_of_plain _ (plainT_stack m sp)
  cases hs : summaryDef m with
  | none =>
    constructor
    · simp only [compileData, hs, Option.getD_none, Option.isSome_none, Bool.false_eq_true,
        if_false, postProcessed_eq]
      cases hst : m.stackProps <;> simp
    · simp only [compileData, hs, postProcessed_eq]
      have hp := hSTR_post (sourceDef m) m hsrcplain
      rw [List.append_assoc] at hp
      cases hst : m.stackProps <;>
        simp [List.any_append, hp, hlayout, hdates, hstack, Bool.or_false]
  | some s =>
    have hsplain : ∀ t ∈ s.transform, plainT t = true := by
      obtain ⟨g, sum, htr⟩ := summaryDef_some_transform m s hs
      intro t ht
      rw [htr] at ht
      simp only [List.mem_singleton] at ht
      simp [ht, plainT]
    constructor
    · simp only [compileData, hs, Option.getD_some, Option.isSome_some, if_true,
        postProcessed_eq]
      cases hst : m.stackProps <;> simp
    · simp only [compileData, hs, postProcessed_eq]
      have hp := hSTR_post s m hsplain
      rw [List.append_assoc] at hp
      have hsrc : hasSortThenRank (sourceDef m).transform = false :=
        hasSortThenRank_of_plain _ hsrcplain
      cases hst : m.stackProps <;>
        simp [List.any_append, hp, hsrc, hlayout, hdates, hstack, Bool.false_or, Bool.or_false]

/-! ## Claim theorems -/

/-- C3: the transform list of the source dataset produced by `source.def`
is exactly the concatenation, in this order, of the null-filter, formula,
filter, bin and time-unit transforms, so no transform of one stage ever
precedes a transform of an earlier stage. -/
theorem source_transform_stage_order (m : Model) :
    (sourceDef m).transform
      = nullFilterTransform m ++ formulaTransform m ++ filterTransform m
        ++ binTransform m ++ timeTransform m := by
  rw [sourceDef_transform]
  rfl

/-- C7: the log post-processor appends to the given data table exactly one
filter transform per channel whose declared scale type is `log`, testing
that channel's own field reference followed by `" > 0"`, and appends no
filter for any other channel (`logPart` is that per-log-channel list). -/
theorem log_filter_appends_per_log_channel (d : VgData) (m : Model) :
    (filterNonPositiveForLog d m).transform = d.transform ++ logPart m := by
  rw [filterLog_eq]

/-- C8: `binTransform` emits, per channel and in channel order, exactly the
bin transform with output names `<field>_start` / `<field>_mid` /
`<field>_end` for every binned channel — with `maxbins` set from the
per-channel `autoMaxBins` policy when the bin specification gives neither a
max-bin-count nor a step — immediately followed by the `<field>_range`
label formula if and only if the channel's resolved scale type is ordinal
or the channel is color; unbinned channels contribute nothing. -/
theorem bin_transform_outputs (m : Model) :
    binTransform m = catMaps (binExpected m) m.channels :=
  binTransform_eq m

/-- C9: `dates.defs` emits exactly one standalone dataset per distinct
bounded time unit occurring on some channel, first occurrence in
channel-scan order winning, each dataset carrying the canonical enumeration
as inline values and a single truncation formula. -/
theorem dates_defs_distinct_time_units (m : Model) :
    datesDefs m = (boundedTimeUnits m).map dateDataset :=
  dates_defs_shape m

/-- A model with both positional channels bound to continuous
(non-ordinal) scales, no facet channel, and distinct configured unit
sizes: width 200, height 100. -/
def mLayoutBug : Model :=
  { channels := [Channel.x, Channel.y],
    fieldDefOf := fun c =>
      match c with
      | Channel.x => { field := "a", type := VlType.quantitative }
      | Channel.y => { field := "b", type := VlType.quantitative }
      | _ => {},
    scaleOf := fun _ => {},
    transform := {},
    mark := "point",
    unitWidth := 200,
    unitHeight := 100 }

/-- C1: at `mLayoutBug` — no row or column channel bound — the layout
dataset's four formulas evaluate with `cellHeight` 100 but `height` 200:
the non-facet `height` formula is the cell *width* formula (line 269 of
`data.ts` uses `cellWidthFormula`), contradicting the claim that it equals
the `cellHeight` formula. -/
theorem layout_height_uses_width_formula :
    (layoutDef mLayoutBug).transform
      = [VgTransform.formula ("cellWidth") (EV.n 200),
         VgTransform.formula ("cellHeight") (EV.n 100),
         VgTransform.formula ("width") (EV.n 200),
         VgTransform.formula ("height") (EV.n 200)]
    ∧ (layoutDef mLayoutBug).transform[3]?
        ≠ some (VgTransform.formula ("height") (EV.n 100)) := by
  constructor
  · rfl
  · decide

/-- A model whose color channel is bound to an ordinal field and whose x
channel carries a log-typed scale, so both post-processors fire. -/
def mRankLog : Model :=
  { channels := [Channel.x, Channel.color],
    fieldDefOf := fun c =>
      match c with
      | Channel.x => { field := "x", type := VlType.quantitative }
      | Channel.color => { field := "c", type := VlType.ordinal }
      | _ => {},
    scaleOf := fun c =>
      match c with
      | Channel.x => { type := some ("log") }
      | _ => {},
    transform := {},
    mark := "point",
    unitWidth := 200,
    unitHeight := 100 }

/-- C2 (counterexample): at `mRankLog` the color channel is ordinal, the
trailing dataset is the source dataset (no summary), its transforms are the
null filter, then sort and rank, then the log filter — so the sort and rank
transforms do NOT appear strictly after all other transforms of that
dataset: a filter transform of the same dataset follows them. -/
theorem rank_not_last_counterexample :
    colorOrdinal mRankLog = true
    ∧ (summaryDef mRankLog).isSome = false
    ∧ ((compileData mRankLog)[(0 : Nat)]?).map VgData.transform
        = some [VgTransform.filter ("datum.x!==null"), VgTransform.sort ("c"),
                VgTransform.rank ("c") ("rank_c"), VgTransform.filter ("datum.x > 0")]
    ∧ ((compileData mRankLog)[(0 : Nat)]?).map (fun d => d.transform.getLast?)
        = some (some (VgTransform.filter ("datum.x > 0"))) := by
  refine ⟨rfl, rfl, ?_, ?_⟩
  · rfl
  · rfl

/-- The distinct quantitative- or temporal-typed channel fields other than
the wildcard `*`, in channel-scan order, first occurrence only: the
default-policy null-filter field set. -/
def distinctQTFields (m : Model) : List String :=
  (m.channels.filterMap (fun c =>
    let fd := m.fieldDefOf c
    if fd.field ≠ "*" ∧ (fd.type = VlType.quantitative ∨ fd.type = VlType.temporal) then
      some fd.field
    else none)).foldl addDistinct []

/-- All distinct channel fields, in channel-scan order. -/
def distinctAllFields (m : Model) : List String :=
  (m.channels.map (fun c => (m.fieldDefOf c).field)).foldl addDistinct []

/-- C4: with no null-filter override, `nullFilterTransform` returns exactly
one filter transform whose test AND-joins exactly one
`datum.<field>!==null` clause per distinct quantitative- or temporal-typed
channel field other than `*`, and the empty list when that field set is
empty; nominal and ordinal fields contribute no clause.  (Field names are
assumed non-empty, as upstream schema validation guarantees.) -/
theorem null_filter_default_policy (m : Model)
    (h0 : m.transform.filterNull = none)
    (h1 : ∀ c ∈ m.channels, (m.fieldDefOf c).field ≠ "") :
    nullFilterTransform m
      = (if distinctQTFields m = [] then []
         else [VgTransform.filter (String.intercalate (" && ")
           ((distinctQTFields m).map (fun f => "datum." ++ f ++ "!==null")))]) := by
  have hkeys : dictKeys (m.channels.foldl (fun agg c =>
      let fd := m.fieldDefOf c
      if m.transform.filterNull = some true ∨
          (m.transform.filterNull = none ∧ fd.field ≠ "" ∧ fd.field ≠ "*" ∧
            DEFAULT_NULL_FILTERS fd.type = true) then
        dsetIn agg fd.field true
      else agg) ([] : StrDict Bool)) = distinctQTFields m := by
    rw [dictKeys_foldl_cond
      (fun c => m.transform.filterNull = some true ∨
        (m.transform.filterNull = none ∧ (m.fieldDefOf c).field ≠ "" ∧
          (m.fieldDefOf c).field ≠ "*" ∧ DEFAULT_NULL_FILTERS (m.fieldDefOf c).type = true))
      (fun c => (m.fieldDefOf c).field) true m.channels []]
    unfold distinctQTFields
    congr 1
    apply List.filterMap_congr
    intro c hc
    have hne := h1 c hc
    by_cases hq : (m.fieldDefOf c).field ≠ "*" ∧
        ((m.fieldDefOf c).type = VlType.quantitative ∨ (m.fieldDefOf c).type = VlType.temporal)
    · have hd : DEFAULT_NULL_FILTERS (m.fieldDefOf c).type = true := by
        rcases hq.2 with ht | ht <;> rw [ht] <;> rfl
      simp [h0, hq, hne, hq.1, hd]
    · rw [if_neg hq, if_neg]
      rintro (habs | habs)
      · rw [h0] at habs
        exact Option.noConfusion habs
      · apply hq
        refine ⟨habs.2.2.1, ?_⟩
        cases hty : (m.fieldDefOf c).type
        · rw [hty] at habs
          exact absurd habs.2.2.2 (by decide)
        · rw [hty] at habs
          exact absurd habs.2.2.2 (by decide)
        · exact Or.inl rfl
        · exact Or.inr rfl
  simp only [nullFilterTransform]
  rw [hkeys]
  by_cases he : distinctQTFields m = []
  · simp [he]
  · simp [he, List.length_pos_iff_ne_nil.mpr he]

lemma filterMap_someFn {α β : Type} (f : α → β) (l : List α) :
    l.filterMap (fun x => some (f x)) = l.map f := by
  induction l with
  | nil => rfl
  | cons x xs ih => simp [List.filterMap_cons, ih]

lemma filterMap_noneFn {α β : Type} (l : List α) :
    l.filterMap (fun _ => (none : Option β)) = [] := by
  induction l with
  | nil => rfl
  | cons x xs ih => simp [List.filterMap_cons, ih]

/-- C10: with the null-filter override explicitly true, the filter test
gets one clause per distinct channel field regardless of semantic type —
nominal, ordinal and the wildcard `*` included; with the override
explicitly false, no null-filter transform is emitted at all. -/
theorem null_filter_override_behavior (m : Model) :
    (m.transform.filterNull = some true →
      nullFilterTransform m
        = (if distinctAllFields m = [] then []
           else [VgTransform.filter (String.intercalate (" && ")
             ((distinctAllFields m).map (fun f => "datum." ++ f ++ "!==null")))]))
    ∧ (m.transform.filterNull = some false → nullFilterTransform m = []) := by
  constructor
  · intro h
    have hkeys : dictKeys (m.channels.foldl (fun agg c =>
        let fd := m.fieldDefOf c
        if m.transform.filterNull = some true ∨
            (m.transform.filterNull = none ∧ fd.field ≠ "" ∧ fd.field ≠ "*" ∧
              DEFAULT_NULL_FILTERS fd.type = true) then
          dsetIn agg fd.field true
        else agg) ([] : StrDict Bool)) = distinctAllFields m := by
      rw [dictKeys_foldl_cond
        (fun c => m.transform.filterNull = some true ∨
          (m.transform.filterNull = none ∧ (m.fieldDefOf c).field ≠ "" ∧
            (m.fieldDefOf c).field ≠ "*" ∧ DEFAULT_NULL_FILTERS (m.fieldDefOf c).type = true))
        (fun c => (m.fieldDefOf c).field) true m.channels []]
      unfold distinctAllFields
      congr 1
      rw [List.filterMap_congr (fun c _ => if_pos (Or.inl h))]
      exact filterMap_someFn _ _
    simp only [nullFilterTransform]
    rw [hkeys]
    by_cases he : distinctAllFields m = []
    · simp [he]
    · simp [he, List.length_pos_iff_ne_nil.mpr he]
  · intro h
    have hkeys : dictKeys (m.channels.foldl (fun agg c =>
        let fd := m.fieldDefOf c
        if m.transform.filterNull = some true ∨
            (m.transform.filterNull = none ∧ fd.field ≠ "" ∧ fd.field ≠ "*" ∧
              DEFAULT_NULL_FILTERS fd.type = true) then
          dsetIn agg fd.field true
        else agg) ([] : StrDict Bool)) = [] := by
      rw [dictKeys_foldl_cond
        (fun c => m.transform.filterNull = some true ∨
          (m.transform.filterNull = none ∧ (m.fieldDefOf c).field ≠ "" ∧
            (m.fieldDefOf c).field ≠ "*" ∧ DEFAULT_NULL_FILTERS (m.fieldDefOf c).type = true))
        (fun c => (m.fieldDefOf c).field) true m.channels []]
      have hcong : ∀ c ∈ m.channels,
          (if m.transform.filterNull = some true ∨
              (m.transform.filterNull = none ∧ (m.fieldDefOf c).field ≠ "" ∧
                (m.fieldDefOf c).field ≠ "*" ∧ DEFAULT_NULL_FILTERS (m.fieldDefOf c).type = true)
            then some ((m.fieldDefOf c).field) else none) = (none : Option String) := by
        intro c _
        rw [if_neg]
        rintro (habs | habs)
        · rw [h] at habs
          simp at habs
        · rw [h] at habs
          exact Option.noConfusion habs.1
      rw [List.filterMap_congr hcong, filterMap_noneFn]
      rfl
    simp only [nullFilterTransform]
    rw [hkeys]
    simp

/-- C5: `summary.def` returns nothing exactly when no channel declares an
aggregate operation; when it returns a dataset, that dataset's single
aggregate transform's groupby list is exactly the non-aggregated,
bin-expanded field references — `_start` / `_mid` / `_end` (plus `_range`
on an ordinal scale) for binned fields — without duplicates. -/
theorem summary_def_aggregate_groupby (m : Model) :
    (summaryDef m = none ↔ ∀ c ∈ m.channels, (m.fieldDefOf c).aggregate = none)
    ∧ (∀ d : VgData, summaryDef m = some d →
        (∃ s, d.transform = [VgTransform.aggregate (some (groupbyExpected m)) s])
        ∧ (groupbyExpected m).Nodup) := by
  obtain ⟨hagg, hdims, hkv⟩ :=
    summaryFold_spec m m.channels ({ dims := [], meas := [], hasAggregate := false } : SummaryAcc)
  have hAgg2 : (m.channels.foldl (summaryStep m)
        ({ dims := [], meas := [], hasAggregate := false } : SummaryAcc)).hasAggregate
      = m.channels.any (fun c => (m.fieldDefOf c).aggregate.isSome) := by
    simpa using hagg
  have hgb : dictKeys (m.channels.foldl (summaryStep m)
        ({ dims := [], meas := [], hasAggregate := false } : SummaryAcc)).dims
      = groupbyExpected m := by
    rw [hdims]
    unfold groupbyExpected
    have hcm : catMaps (fun c => if (m.fieldDefOf c).aggregate.isSome then [] else dimNames m c)
          m.channels
        = catMaps (groupbyStep m) m.channels := by
      apply catMaps_congr
      intro c _
      cases hA : (m.fieldDefOf c).aggregate with
      | some a => simp [hA, groupbyStep]
      | none => simp [hA, groupbyStep, dimNames_eq_groupbyStep m c hA]
    rw [hcm]
    rfl
  constructor
  · constructor
    · intro hnone c hc
      simp only [summaryDef] at hnone
      split at hnone
      · exact absurd hnone (by simp)
      · rename_i hfalse
        rw [hAgg2] at hfalse
        have hany : m.channels.any (fun c => (m.fieldDefOf c).aggregate.isSome) = false :=
          Bool.not_eq_true _ ▸ Bool.eq_false_iff.mpr hfalse
        have := List.any_eq_false.mp hany c hc
        exact Option.not_isSome_iff_eq_none.mp this
    · intro hall
      have hany : m.channels.any (fun c => (m.fieldDefOf c).aggregate.isSome) = false := by
        rw [List.any_eq_false]
        intro c hc
        simp [hall c hc]
      simp only [summaryDef]
      rw [if_neg]
      rw [hAgg2, hany]
      simp
  · intro d hd
    simp only [summaryDef] at hd
    split at hd
    · have hrec := (Option.some.injEq _ _).mp hd
      constructor
      · refine ⟨((m.channels.foldl (summaryStep m)
            ({ dims := [], meas := [], hasAggregate := false } : SummaryAcc)).meas.map
              (fun p => (p.1, dictKeys p.2))), ?_⟩
        rw [← hrec]
        have hkv0 : ∀ p ∈ (m.channels.foldl (summaryStep m)
            ({ dims := [], meas := [], hasAggregate := false } : SummaryAcc)).dims,
            p.2 = p.1 := by
          apply hkv
          intro p hp
          simp at hp
        rw [show (dictVals (m.channels.foldl (summaryStep m)
            ({ dims := [], meas := [], hasAggregate := false } : SummaryAcc)).dims)
            = groupbyExpected m from (dictVals_eq_dictKeys _ hkv0).trans hgb]
      · exact nodup_foldl_addDistinct _ [] List.nodup_nil
    · exact absurd hd (by simp)

/-- `d'` differs from `d` only by transforms appended at the end: name,
source, values, url and format are identical and the pre-existing
transform prefix is preserved unchanged. -/
def appendOnly (d d' : VgData) : Prop :=
  d'.name = d.name ∧ d'.source = d.source ∧ d'.values = d.values ∧ d'.url = d.url
  ∧ d'.format = d.format ∧ ∃ tail, d'.transform = d.transform ++ tail

/-- C6: the rank and log-filter post-processors, alone and composed, only
ever append transforms at the end of the dataset they are given — every
other field is identical and the pre-existing transform prefix is
preserved — and when a summary dataset exists, the earlier source dataset
of `compileData`'s list is exactly `source.def`'s output, untouched. -/
theorem post_processors_append_only (d : VgData) (m : Model) :
    appendOnly d (rankTransform d m)
    ∧ appendOnly d (filterNonPositiveForLog d m)
    ∧ appendOnly d (filterNonPositiveForLog (rankTransform d m) m)
    ∧ ((summaryDef m).isSome = true → (compileData m)[(0 : Nat)]? = some (sourceDef m)) := by
  refine ⟨?_, ?_, ?_, ?_⟩
  · rw [rankTransform_eq]
    exact ⟨rfl, rfl, rfl, rfl, rfl, rankPart m, rfl⟩
  · rw [filterLog_eq]
    exact ⟨rfl, rfl, rfl, rfl, rfl, logPart m, rfl⟩
  · rw [postProcessed_eq]
    exact ⟨rfl, rfl, rfl, rfl, rfl, rankPart m ++ logPart m, List.append_assoc _ _ _⟩
  · intro hsome
    obtain ⟨s, hs⟩ := Option.isSome_iff_exists.mp hsome
    simp only [compileData, hs]
    cases hst : m.stackProps <;> simp

/-- A model with a summed y channel and a plain nominal x channel, so a
summary dataset exists. -/
def mAggW : Model :=
  { channels := [Channel.x, Channel.y],
    fieldDefOf := fun c =>
      match c with
      | Channel.x => { field := "g", type := VlType.nominal }
      | Channel.y => { field := "q", type := VlType.quantitative, aggregate := some ("sum") }
      | _ => {},
    scaleOf := fun _ => {},
    transform := {},
    mark := "bar",
    unitWidth := 200,
    unitHeight := 100 }

/-- A sample data table with one pre-existing transform. -/
def dW6 : VgData := { name := "t", transform := [VgTransform.filter ("datum.q > 2")] }

/-- C6 witness: the post-processors at a concrete data table and model
with a summary dataset. -/
theorem post_processors_append_only_witness :
    appendOnly dW6 (rankTransform dW6 mAggW)
    ∧ appendOnly dW6 (filterNonPositiveForLog dW6 mAggW)
    ∧ appendOnly dW6 (filterNonPositiveForLog (rankTransform dW6 mAggW) mAggW)
    ∧ (compileData mAggW)[(0 : Nat)]? = some (sourceDef mAggW) := by
  obtain ⟨h1, h2, h3, h4⟩ := post_processors_append_only dW6 mAggW
  exact ⟨h1, h2, h3, h4 (by rfl)⟩

/-- The summary dataset `summary.def` produces at `mAggW`. -/
def dAggW : VgData :=
  { name := SUMMARY, source := some SOURCE,
    transform := [VgTransform.aggregate (some (["g"])) [("q", ["sum"])]] }

/-- C5 witness: the groupby property at a concrete aggregated model. -/
theorem summary_def_aggregate_groupby_witness :
    (∃ s, dAggW.transform = [VgTransform.aggregate (some (groupbyExpected mAggW)) s])
    ∧ (groupbyExpected mAggW).Nodup :=
  (summary_def_aggregate_groupby mAggW).2 dAggW (by rfl)

/-- A model with quantitative, temporal and nominal channels and no
null-filter override. -/
def mNullW : Model :=
  { channels := [Channel.x, Channel.y, Channel.color],
    fieldDefOf := fun c =>
      match c with
      | Channel.x => { field := "a", type := VlType.quantitative }
      | Channel.y => { field := "d", type := VlType.temporal }
      | Channel.color => { field := "n", type := VlType.nominal }
      | _ => {},
    scaleOf := fun _ => {},
    transform := {},
    mark := "point",
    unitWidth := 200,
    unitHeight := 100 }

/-- C4 witness: the default null-filter policy at a concrete model. -/
theorem null_filter_default_policy_witness :
    nullFilterTransform mNullW
      = (if distinctQTFields mNullW = [] then []
         else [VgTransform.filter (String.intercalate (" && ")
           ((distinctQTFields mNullW).map (fun f => "datum." ++ f ++ "!==null")))]) :=
  null_filter_default_policy mNullW rfl (by decide)

/-- A model with the null-filter override set to true, carrying a nominal
field and the wildcard field. -/
def mOvW : Model :=
  { channels := [Channel.x, Channel.y],
    fieldDefOf := fun c =>
      match c with
      | Channel.x => { field := "n", type := VlType.nominal }
      | Channel.y => { field := "*", type := VlType.quantitative }
      | _ => {},
    scaleOf := fun _ => {},
    transform := { filterNull := some true },
    mark := "point",
    unitWidth := 200,
    unitHeight := 100 }

/-- `mOvW` with the null-filter override set to false instead. -/
def mOffW : Model :=
  { mOvW with transform := { filterNull := some false } }

/-- C10 witness: both override values at concrete models. -/
theorem null_filter_override_behavior_witness :
    nullFilterTransform mOvW
      = (if distinctAllFields mOvW = [] then []
         else [VgTransform.filter (String.intercalate (" && ")
           ((distinctAllFields mOvW).map (fun f => "datum." ++ f ++ "!==null")))])
    ∧ nullFilterTransform mOffW = [] :=
  ⟨(null_filter_override_behavior mOvW).1 rfl, (null_filter_override_behavior mOffW).2 rfl⟩
